import Mathlib

/-!
Shallow embedding of the growth-state update engine of the plant C-Space
simulation (source: `types/plant-types.ts` and `hooks/usePlantCSpace.ts`).
JavaScript numbers are modelled as real numbers; `Math.sqrt`, `Math.tanh`,
`Math.log1p`, `Math.sign`, `Math.cos`, `Math.sin` become the corresponding
real functions.  The per-tick `setNodes` updater becomes an explicit
old-list-in / new-list-out transition (`tickNodes`), with the two
`Math.random()` call sites fed from an injected stream `rng : ℕ → ℝ`
consumed in source order (branch direction first, growth draw second,
each only when its call site is actually reached).
-/

namespace PlantSim

/-- 2D vector, from `types/plant-types.ts` (`Vector2D`). -/
structure Vector2D where
  x : ℝ
  y : ℝ

/-- Resource kind tag, from `types/plant-types.ts` (`ResourcePoint.type`). -/
inductive RType where
  | light
  | support
  | obstacle
deriving DecidableEq

/-- Static environmental resource, from `types/plant-types.ts` (`ResourcePoint`). -/
structure ResourcePoint where
  position : Vector2D
  intensity : ℝ
  type : RType

/-- Growth node, from `types/plant-types.ts` (`PlantNode`).  `id` and `age`
are integer-valued in the source and are modelled as naturals. -/
structure PlantNode where
  id : ℕ
  position : Vector2D
  energy : ℝ
  coherence : ℝ
  distortion : ℝ
  temporalComplexity : ℝ
  spatialComplexity : ℝ
  parent : Option ℕ
  age : ℕ

/-- `ALPHA = 0.05`, coherence damping coefficient. -/
def ALPHA : ℝ := 0.05

/-- `BETA = 0.1`, temporal scaling factor. -/
def BETA : ℝ := 0.1

/-- `EPSILON = 1e-9`, stabilizer added to the coherence denominator. -/
def EPSILON : ℝ := 1e-9

/-- `D_CRITICAL = 2.5`, critical distortion threshold for branching. -/
def D_CRITICAL : ℝ := 2.5

/-- `GROWTH_RATE = 5`, base growth rate per step. -/
def GROWTH_RATE : ℝ := 5

/-- `MAX_ENERGY_DISTANCE = 200`, maximum distance to sense energy. -/
def MAX_ENERGY_DISTANCE : ℝ := 200

/-- `COMPLEXITY_GRADIENT_SCALE = 0.01`, scale for the spatial complexity gradient. -/
def COMPLEXITY_GRADIENT_SCALE : ℝ := 0.01

/-- Euclidean distance `Math.sqrt(Math.pow(a.x - b.x, 2) + Math.pow(a.y - b.y, 2))`
as computed inline throughout `usePlantCSpace`. -/
noncomputable def distTo (p q : Vector2D) : ℝ :=
  Real.sqrt ((p.x - q.x) ^ 2 + (p.y - q.y) ^ 2)

/-- One `resources.forEach` iteration of `calculateSpatialComplexity`:
obstacles within 100 units add `intensity * (1 - distance/100)`, supports
subtract `intensity * (1 - distance/100) * 0.5`, everything else leaves the
accumulator unchanged. -/
noncomputable def spatialContrib (pos : Vector2D) (complexity : ℝ)
    (resource : ResourcePoint) : ℝ :=
  let distance := distTo pos resource.position
  if distance < 100 then
    match resource.type with
    | RType.obstacle => complexity + resource.intensity * (1 - distance / 100)
    | RType.support => complexity - resource.intensity * (1 - distance / 100) * 0.5
    | RType.light => complexity
  else complexity

/-- `calculateSpatialComplexity` from `usePlantCSpace`: base 0.5, resource
contributions, then constrained to `[0.1, 1.0]`. -/
noncomputable def calculateSpatialComplexity (resources : List ResourcePoint)
    (pos : Vector2D) : ℝ :=
  max 0.1 (min 1.0 (resources.foldl (spatialContrib pos) 0.5))

/-- One `resources.forEach` iteration of `calculateEnergy`: light sources
within `MAX_ENERGY_DISTANCE` add `intensity * (1 - distance/MAX_ENERGY_DISTANCE)^2`. -/
noncomputable def energyContrib (pos : Vector2D) (energy : ℝ)
    (resource : ResourcePoint) : ℝ :=
  if resource.type = RType.light then
    let distance := distTo pos resource.position
    if distance < MAX_ENERGY_DISTANCE then
      energy + resource.intensity * (1 - distance / MAX_ENERGY_DISTANCE) ^ 2
    else energy
  else energy

/-- `calculateEnergy` from `usePlantCSpace`: ambient 0.2, light contributions,
then constrained to `[0.1, 1.0]`. -/
noncomputable def calculateEnergy (resources : List ResourcePoint)
    (pos : Vector2D) : ℝ :=
  max 0.1 (min 1.0 (resources.foldl (energyContrib pos) 0.2))

/-- `calculateSpatialGradient` from `usePlantCSpace`: forward finite
difference of `calculateSpatialComplexity` with step `delta = 5`. -/
noncomputable def calculateSpatialGradient (resources : List ResourcePoint)
    (pos : Vector2D) : Vector2D :=
  let delta : ℝ := 5
  let s := calculateSpatialComplexity resources pos
  let sx := calculateSpatialComplexity resources ⟨pos.x + delta, pos.y⟩
  let sy := calculateSpatialComplexity resources ⟨pos.x, pos.y + delta⟩
  ⟨(sx - s) / delta, (sy - s) / delta⟩

/-- `gradS` of the per-node update: magnitude
`Math.sqrt(gradient.x * gradient.x + gradient.y * gradient.y)`. -/
noncomputable def gradMag (resources : List ResourcePoint) (pos : Vector2D) : ℝ :=
  let gradient := calculateSpatialGradient resources pos
  Real.sqrt (gradient.x * gradient.x + gradient.y * gradient.y)

/-- `dH = -ALPHA * (dD_dH + gradS * COMPLEXITY_GRADIENT_SCALE)` with
`dD_dH = node.distortion / (node.coherence + EPSILON)`. -/
noncomputable def dHof (resources : List ResourcePoint) (node : PlantNode) : ℝ :=
  -ALPHA * (node.distortion / (node.coherence + EPSILON) +
    gradMag resources node.position * COMPLEXITY_GRADIENT_SCALE)

/-- `dD = BETA * Math.log1p(Math.abs(dH) * E)`; `log1p x = log (1 + x)`. -/
noncomputable def dDof (resources : List ResourcePoint) (node : PlantNode) : ℝ :=
  BETA * Real.log (1 + |dHof resources node| * calculateEnergy resources node.position)

/-- `dT = BETA * Math.tanh(Math.abs(dH) * E) * Math.sign(node.coherence)`. -/
noncomputable def dTof (resources : List ResourcePoint) (node : PlantNode) : ℝ :=
  BETA * Real.tanh (|dHof resources node| * calculateEnergy resources node.position) *
    Real.sign node.coherence

/-- One `resources.forEach` iteration of the light-bias accumulation in the
growth block (lines 252-264 of the hook): for a light source within sensing
range, add `dx / distance * weight` componentwise.  JavaScript division is
totalized here with the real-number convention `x / 0 = 0`; the faithful
fallible version of this same loop is `lightBiasChecked` below. -/
noncomputable def lightBiasStep (pos : Vector2D) (acc : Vector2D)
    (resource : ResourcePoint) : Vector2D :=
  if resource.type = RType.light then
    let dx := resource.position.x - pos.x
    let dy := resource.position.y - pos.y
    let distance := Real.sqrt (dx * dx + dy * dy)
    if distance < MAX_ENERGY_DISTANCE then
      let weight := resource.intensity * (1 - distance / MAX_ENERGY_DISTANCE)
      ⟨acc.x + dx / distance * weight, acc.y + dy / distance * weight⟩
    else acc
  else acc

/-- Accumulated light bias `(lightBiasX, lightBiasY)` of the growth block. -/
noncomputable def lightBias (resources : List ResourcePoint) (pos : Vector2D) : Vector2D :=
  resources.foldl (lightBiasStep pos) ⟨0, 0⟩

/-- Fallible embedding of the same light-bias loop: the source computes
`dx / distance` guarded only by `distance < MAX_ENERGY_DISTANCE`, so when
`distance = 0` (node exactly on a light source) the JavaScript division
produces `NaN` (`0 / 0`); that undefined outcome is modelled as `none`. -/
noncomputable def lightBiasCheckedStep (pos : Vector2D) (acc : Option Vector2D)
    (resource : ResourcePoint) : Option Vector2D :=
  match acc with
  | none => none
  | some b =>
    if resource.type = RType.light then
      let dx := resource.position.x - pos.x
      let dy := resource.position.y - pos.y
      let distance := Real.sqrt (dx * dx + dy * dy)
      if distance < MAX_ENERGY_DISTANCE then
        if distance = 0 then none
        else
          let weight := resource.intensity * (1 - distance / MAX_ENERGY_DISTANCE)
          some ⟨b.x + dx / distance * weight, b.y + dy / distance * weight⟩
      else some b
    else some b

/-- The light-bias accumulation with every division checked for a zero
denominator; `none` marks an undefined (NaN) outcome of the source loop. -/
noncomputable def lightBiasChecked (resources : List ResourcePoint)
    (pos : Vector2D) : Option Vector2D :=
  resources.foldl (lightBiasCheckedStep pos) (some ⟨0, 0⟩)

/-- The base per-node update (`newNodes[index] = { ...node, ... }`,
lines 192-200): refresh coherence, distortion, temporal complexity, sampled
fields, and increment age. -/
noncomputable def baseUpdate (resources : List ResourcePoint) (node : PlantNode) :
    PlantNode :=
  { node with
    coherence := max 0 (node.coherence + dHof resources node)
    distortion := node.distortion + dDof resources node
    temporalComplexity := node.temporalComplexity + dTof resources node
    spatialComplexity := calculateSpatialComplexity resources node.position
    energy := calculateEnergy resources node.position
    age := node.age + 1 }

/-- The branching guard of line 209, exactly as the source evaluates it:
pre-update distortion, sampled energy, pre-update age, and the length of
`prevNodes.filter(n => dist(n.position, pos) < 20)` — a filter over the full
previous snapshot, which therefore also matches the node itself. -/
noncomputable def branchCond (resources : List ResourcePoint)
    (prev : List PlantNode) (node : PlantNode) : Prop :=
  node.distortion > D_CRITICAL ∧
  calculateEnergy resources node.position > 0.3 ∧
  node.age > 5 ∧
  (prev.filter (fun n => decide (distTo n.position node.position < 20))).length < 3

noncomputable instance branchCondDec (resources : List ResourcePoint)
    (prev : List PlantNode) (node : PlantNode) :
    Decidable (branchCond resources prev node) := by
  unfold branchCond
  infer_instance

/-- The branch child of lines 214-227: random direction, distance scaled by
energy, coherence reset to 1, distortion reset to 0, temporal complexity
carried over, age 0. -/
noncomputable def branchChildOf (resources : List ResourcePoint) (rng : ℕ → ℝ)
    (node : PlantNode) (childId k : ℕ) : PlantNode :=
  let pos := node.position
  let E := calculateEnergy resources pos
  let branchDirection := rng k * (2 * Real.pi)
  let branchDistance := GROWTH_RATE * (0.5 + 0.5 * E)
  { id := childId
    position := ⟨pos.x + Real.cos branchDirection * branchDistance,
                 pos.y + Real.sin branchDirection * branchDistance⟩
    energy := E
    coherence := 1.0
    distortion := 0.0
    temporalComplexity := node.temporalComplexity
    spatialComplexity := calculateSpatialComplexity resources pos
    parent := some node.id
    age := 0 }

/-- The growth block of lines 238-297.  The deterministic part of the guard
(`coherence > 0.2 && age < 15 && activeNodeCount < 50`) is evaluated first;
only when it holds does the source reach `Math.random() > 0.5`
(short-circuit `&&`), so only then is the stream consumed.  Returns the
optional growth child and the next random-stream index. -/
noncomputable def growthFor (resources : List ResourcePoint)
    (prev : List PlantNode) (rng : ℕ → ℝ) (node : PlantNode)
    (childId k : ℕ) : Option PlantNode × ℕ :=
  if node.coherence > 0.2 ∧ node.age < 15 ∧
      (prev.filter (fun n => decide (n.age < 15))).length < 50 then
    if rng k > 0.5 then
      let pos := node.position
      let S := calculateSpatialComplexity resources pos
      let E := calculateEnergy resources pos
      let gradient := calculateSpatialGradient resources pos
      let moveX := -gradient.x * 10 - 0.2
      let moveY := -gradient.y * 10 - 0.6
      let lb := lightBias resources pos
      let pureTimeFactor := max 0 (1 - S * 2)
      let dirX := moveX + lb.x * 2 * pureTimeFactor
      let dirY := moveY + lb.y * 2 * pureTimeFactor
      let magnitude := Real.sqrt (dirX * dirX + dirY * dirY)
      let normDirX := if magnitude > 0 then dirX / magnitude else 0
      let normDirY := if magnitude > 0 then dirY / magnitude else -1
      let growth := GROWTH_RATE * (0.5 + 0.5 * E)
      (some { id := childId
              position := ⟨pos.x + normDirX * growth, pos.y + normDirY * growth⟩
              energy := E
              coherence := node.coherence
              distortion := node.distortion
              temporalComplexity := node.temporalComplexity + dTof resources node
              spatialComplexity := S
              parent := some node.id
              age := 0 }, k + 1)
    else (none, k + 1)
  else (none, k)

/-- Everything one iteration of the `prevNodes.forEach` body produces: the
in-place updated node, the optional branch child, the optional growth child
(pushed to `nodesToAdd` in that order), and the next random-stream index. -/
structure StepResult where
  updated : PlantNode
  branchChild : Option PlantNode
  growthChild : Option PlantNode
  nextK : ℕ

/-- One iteration of the `prevNodes.forEach` body (lines 170-298).
`addedCount` is `nodesToAdd.length` on entry, so a branch child gets id
`prev.length + addedCount` and a growth child the next free id. -/
noncomputable def stepNode (resources : List ResourcePoint)
    (prev : List PlantNode) (rng : ℕ → ℝ) (addedCount k : ℕ)
    (node : PlantNode) : StepResult :=
  if node.age > 20 then ⟨node, none, none, k⟩
  else if branchCond resources prev node then
    let g := growthFor resources prev rng node (prev.length + addedCount + 1) (k + 1)
    ⟨{ baseUpdate resources node with distortion := 0.5 },
      some (branchChildOf resources rng node (prev.length + addedCount) k),
      g.1, g.2⟩
  else
    let g := growthFor resources prev rng node (prev.length + addedCount) k
    ⟨baseUpdate resources node, none, g.1, g.2⟩

/-- The node a given `prevNodes` entry is replaced by after one tick,
independent of the random stream and of the id bookkeeping: unchanged when
inert, base-updated with distortion reset to 0.5 when the branch guard
fires, base-updated otherwise. -/
noncomputable def updNode (resources : List ResourcePoint)
    (prev : List PlantNode) (node : PlantNode) : PlantNode :=
  if node.age > 20 then node
  else if branchCond resources prev node then
    { baseUpdate resources node with distortion := 0.5 }
  else baseUpdate resources node

/-- Accumulator of the per-tick fold: the rewritten copies of the previous
nodes (`newNodes`), the collected new nodes (`nodesToAdd`), and the
random-stream position. -/
structure TickAcc where
  upd : List PlantNode
  added : List PlantNode
  k : ℕ

/-- Fold step of the tick over `prevNodes`. -/
noncomputable def tickStep (resources : List ResourcePoint)
    (prev : List PlantNode) (rng : ℕ → ℝ) (acc : TickAcc)
    (node : PlantNode) : TickAcc :=
  let r := stepNode resources prev rng acc.added.length acc.k node
  { upd := acc.upd ++ [r.updated]
    added := acc.added ++ r.branchChild.toList ++ r.growthChild.toList
    k := r.nextK }

/-- The whole `setNodes` updater of the tick (lines 163-302):
`return [...newNodes, ...nodesToAdd]`. -/
noncomputable def tickNodes (resources : List ResourcePoint) (rng : ℕ → ℝ)
    (prev : List PlantNode) : List PlantNode :=
  let acc := prev.foldl (tickStep resources prev rng) ⟨[], [], 0⟩
  acc.upd ++ acc.added

/-- The full engine state the tick effect can touch: the node list and the
resource list.  The tick effect calls `setNodes` only. -/
structure SimState where
  nodes : List PlantNode
  resources : List ResourcePoint

/-- One timer tick on the full state: replaces the node list, leaves the
resource list alone. -/
noncomputable def tickState (s : SimState) (rng : ℕ → ℝ) : SimState :=
  { nodes := tickNodes s.resources rng s.nodes, resources := s.resources }

/-- The initial seed node (lines 47-57), for canvas dimensions
`width × height`. -/
noncomputable def seedNode (width height : ℝ) : PlantNode :=
  { id := 0
    position := ⟨width / 2, height - 50⟩
    energy := 0.5
    coherence := 1.0
    distortion := 0.0
    temporalComplexity := 0.0
    spatialComplexity := 0.5
    parent := none
    age := 0 }

/-- Node lists reachable from initialization by ticking.  Resources may
differ from tick to tick (the interaction layer may append resources
between ticks) and the random stream is arbitrary; both generalities only
strengthen any invariant proved over `Reaches`. -/
inductive Reaches : List PlantNode → Prop where
  | init (width height : ℝ) : Reaches [seedNode width height]
  | tick (prev : List PlantNode) (resources : List ResourcePoint) (rng : ℕ → ℝ) :
      Reaches prev → Reaches (tickNodes resources rng prev)

/-- One SVG path command of a derived path string: `M x,y` or `L x,y`
(lines 323 and 329 build exactly these). -/
inductive PathCmd where
  | move (p : Vector2D)
  | line (p : Vector2D)

/-- One entry of the derived `paths` array: `{ id, d }` with the command
string modelled as the list of its commands. -/
structure PathEntry where
  id : ℕ
  cmds : List PathCmd

/-- The body of the `pathIndex` branch of the paths effect (lines 318-331):
find the first entry whose id matches the parent id and append `L cpos` to
it in place; if there is none, push a fresh `M ppos L cpos` entry at the
end. -/
def appendSeg : List PathEntry → ℕ → Vector2D → Vector2D → List PathEntry
  | [], pid, ppos, cpos => [⟨pid, [PathCmd.move ppos, PathCmd.line cpos]⟩]
  | e :: rest, pid, ppos, cpos =>
    if e.id = pid then ⟨e.id, e.cmds ++ [PathCmd.line cpos]⟩ :: rest
    else e :: appendSeg rest pid ppos cpos

/-- One `nodes.forEach` iteration of the paths effect (lines 313-334):
nodes without a parent, or whose parent id is not found in the node list,
contribute nothing. -/
def pathStep (nodes : List PlantNode) (acc : List PathEntry)
    (node : PlantNode) : List PathEntry :=
  match node.parent with
  | none => acc
  | some pid =>
    match nodes.find? (fun n => n.id == pid) with
    | none => acc
    | some parent => appendSeg acc pid parent.position node.position

/-- The paths effect (lines 309-337): rebuild the whole path list from the
current node list. -/
def derivePaths (nodes : List PlantNode) : List PathEntry :=
  nodes.foldl (pathStep nodes) []

/-- Look up the accumulated command list of the entry with a given id. -/
def pathLookup (acc : List PathEntry) (pid : ℕ) : Option (List PathCmd) :=
  (acc.find? (fun e => e.id == pid)).map PathEntry.cmds

/-- SVG semantics of a command list: `M p` moves the current point to `p`;
`L p` draws a segment from the current point to `p` and moves the current
point there. -/
def segmentsFrom : Option Vector2D → List PathCmd → List (Vector2D × Vector2D)
  | _, [] => []
  | _, PathCmd.move p :: rest => segmentsFrom (some p) rest
  | none, PathCmd.line p :: rest => segmentsFrom (some p) rest
  | some c, PathCmd.line p :: rest => (c, p) :: segmentsFrom (some p) rest

/-- The line segments an SVG renderer draws for a command list. -/
def segmentsOf (cmds : List PathCmd) : List (Vector2D × Vector2D) :=
  segmentsFrom none cmds

/-- Modelled from the spec (claim C1's own wording, for comparison with the
source's `branchCond`): branching is claimed to trigger on POST-update
distortion and on the count of OTHER nodes within 20 units. -/
noncomputable def specBranchGuard (resources : List ResourcePoint)
    (prev : List PlantNode) (node : PlantNode) : Prop :=
  node.distortion + dDof resources node > D_CRITICAL ∧
  calculateEnergy resources node.position > 0.3 ∧
  node.age > 5 ∧
  (prev.filter (fun n =>
    decide (n.id ≠ node.id ∧ distTo n.position node.position < 20))).length < 3

/-- A single light source of intensity 1 sitting at the origin. -/
noncomputable def resA : List ResourcePoint :=
  [{ position := ⟨0, 0⟩, intensity := 1, type := RType.light }]

/-- A single light source of intensity 1 at `(0, 100)`. -/
noncomputable def resB : List ResourcePoint :=
  [{ position := ⟨0, 100⟩, intensity := 1, type := RType.light }]

/-- C1 counterexample input: pre-update distortion exactly at the critical
threshold (so the post-update distortion exceeds it but the source guard,
which reads the pre-update value, does not fire). -/
noncomputable def cexC1node : PlantNode :=
  { id := 0, position := ⟨0, 0⟩, energy := 0.5, coherence := 0.1,
    distortion := 2.5, temporalComplexity := 0, spatialComplexity := 0.5,
    parent := none, age := 6 }

/-- Input on which the source branch guard does fire. -/
noncomputable def witC1node : PlantNode :=
  { id := 0, position := ⟨0, 0⟩, energy := 0.5, coherence := 1,
    distortion := 3, temporalComplexity := 0, spatialComplexity := 0.5,
    parent := none, age := 6 }

/-- C3 counterexample input: a node for which the growth guard fires (with
a random stream constantly 0.6) and `dT ≠ 0`. -/
noncomputable def cexC3node : PlantNode :=
  { id := 0, position := ⟨0, 0⟩, energy := 0.5, coherence := 1,
    distortion := 0.5, temporalComplexity := 0, spatialComplexity := 0.5,
    parent := none, age := 3 }

/-- C4 counterexample input: one root with two children at distinct
positions. -/
noncomputable def rootNode : PlantNode :=
  { id := 0, position := ⟨0, 0⟩, energy := 0.5, coherence := 1,
    distortion := 0, temporalComplexity := 0, spatialComplexity := 0.5,
    parent := none, age := 3 }

/-- First child of `rootNode`, at `(10, 0)`. -/
noncomputable def childNode1 : PlantNode :=
  { id := 1, position := ⟨10, 0⟩, energy := 0.5, coherence := 1,
    distortion := 0, temporalComplexity := 0, spatialComplexity := 0.5,
    parent := some 0, age := 1 }

/-- Second child of `rootNode`, at `(0, 10)`. -/
noncomputable def childNode2 : PlantNode :=
  { id := 2, position := ⟨0, 10⟩, energy := 0.5, coherence := 1,
    distortion := 0, temporalComplexity := 0, spatialComplexity := 0.5,
    parent := some 0, age := 1 }

/-- The three-node forest of the C4 counterexample. -/
noncomputable def nodes3 : List PlantNode := [rootNode, childNode1, childNode2]

theorem clamp_mem (x : ℝ) : 0.1 ≤ max 0.1 (min 1.0 x) ∧ max 0.1 (min 1.0 x) ≤ 1.0 := by
  constructor
  · exact le_max_left _ _
  · apply max_le (by norm_num)
    exact min_le_left _ _

/-- C7: for every finite position and resource set, `calculateEnergy` and
`calculateSpatialComplexity` return a value within `[0.1, 1.0]` (baseline
accumulation followed by the clamp `max 0.1 (min 1.0 _)`). -/
theorem field_clamp_range (resources : List ResourcePoint) (pos : Vector2D) :
    (0.1 ≤ calculateEnergy resources pos ∧ calculateEnergy resources pos ≤ 1.0) ∧
    (0.1 ≤ calculateSpatialComplexity resources pos ∧
      calculateSpatialComplexity resources pos ≤ 1.0) :=
  ⟨clamp_mem _, clamp_mem _⟩

theorem stepNode_updated (resources : List ResourcePoint) (prev : List PlantNode)
    (rng : ℕ → ℝ) (ac k : ℕ) (node : PlantNode) :
    (stepNode resources prev rng ac k node).updated = updNode resources prev node := by
  by_cases h1 : node.age > 20
  · simp [stepNode, updNode, h1]
  · by_cases h2 : branchCond resources prev node <;>
      simp [stepNode, updNode, h1, h2]

theorem updNode_id (resources : List ResourcePoint) (prev : List PlantNode)
    (node : PlantNode) : (updNode resources prev node).id = node.id := by
  unfold updNode baseUpdate
  split
  · rfl
  · split <;> rfl

theorem updNode_position (resources : List ResourcePoint) (prev : List PlantNode)
    (node : PlantNode) : (updNode resources prev node).position = node.position := by
  unfold updNode baseUpdate
  split
  · rfl
  · split <;> rfl

theorem updNode_parent (resources : List ResourcePoint) (prev : List PlantNode)
    (node : PlantNode) : (updNode resources prev node).parent = node.parent := by
  unfold updNode baseUpdate
  split
  · rfl
  · split <;> rfl

theorem updNode_inert (resources : List ResourcePoint) (prev : List PlantNode)
    {node : PlantNode} (h : 20 < node.age) : updNode resources prev node = node := by
  simp [updNode, h]

theorem updNode_age (resources : List ResourcePoint) (prev : List PlantNode)
    {node : PlantNode} (h : node.age ≤ 20) :
    (updNode resources prev node).age = node.age + 1 := by
  have h' : ¬ node.age > 20 := by omega
  unfold updNode baseUpdate
  rw [if_neg h']
  split <;> rfl

theorem stepNode_inert (resources : List ResourcePoint) (prev : List PlantNode)
    (rng : ℕ → ℝ) (ac k : ℕ) {node : PlantNode} (h : 20 < node.age) :
    stepNode resources prev rng ac k node = ⟨node, none, none, k⟩ := by
  simp [stepNode, h]

theorem growthFor_fst (resources : List ResourcePoint) (prev : List PlantNode)
    (rng : ℕ → ℝ) (node : PlantNode) (cid k : ℕ) :
    (growthFor resources prev rng node cid k).1 = none ∨
      ∃ c, (growthFor resources prev rng node cid k).1 = some c ∧ c.id = cid := by
  unfold growthFor
  split
  · split
    · exact Or.inr ⟨_, rfl, rfl⟩
    · exact Or.inl rfl
  · exact Or.inl rfl

theorem growthFor_some {resources : List ResourcePoint} {prev : List PlantNode}
    {rng : ℕ → ℝ} {node : PlantNode} {cid k : ℕ} {c : PlantNode}
    (h : (growthFor resources prev rng node cid k).1 = some c) :
    node.coherence > 0.2 ∧ node.age < 15 ∧
    (prev.filter (fun n => decide (n.age < 15))).length < 50 ∧
    rng k > 0.5 ∧ (growthFor resources prev rng node cid k).2 = k + 1 ∧
    c.id = cid ∧ c.parent = some node.id ∧ c.age = 0 ∧
    c.temporalComplexity = node.temporalComplexity + dTof resources node := by
  by_cases hg : node.coherence > 0.2 ∧ node.age < 15 ∧
      (prev.filter (fun n => decide (n.age < 15))).length < 50
  · by_cases hr : rng k > 0.5
    · simp only [growthFor, if_pos hg, if_pos hr] at h
      obtain rfl := (Option.some_inj.mp h).symm
      refine ⟨hg.1, hg.2.1, hg.2.2, hr, ?_, rfl, rfl, rfl, rfl⟩
      simp [growthFor, if_pos hg, if_pos hr]
    · simp [growthFor, if_pos hg, if_neg hr] at h
  · simp [growthFor, if_neg hg] at h

theorem growthFor_none {resources : List ResourcePoint} {prev : List PlantNode}
    {rng : ℕ → ℝ} {node : PlantNode} {cid k : ℕ}
    (h : ¬ rng k > 0.5) :
    (growthFor resources prev rng node cid k).1 = none := by
  by_cases hg : node.coherence > 0.2 ∧ node.age < 15 ∧
      (prev.filter (fun n => decide (n.age < 15))).length < 50
  · simp [growthFor, if_pos hg, if_neg h]
  · simp [growthFor, if_neg hg]

theorem stepNode_children_ids (resources : List ResourcePoint) (prev : List PlantNode)
    (rng : ℕ → ℝ) (ac k : ℕ) (node : PlantNode) :
    ((stepNode resources prev rng ac k node).branchChild.toList ++
      (stepNode resources prev rng ac k node).growthChild.toList).map (·.id) =
    List.range' (prev.length + ac)
      ((stepNode resources prev rng ac k node).branchChild.toList ++
        (stepNode resources prev rng ac k node).growthChild.toList).length := by
  by_cases h1 : node.age > 20
  · simp [stepNode, h1]
  · by_cases h2 : branchCond resources prev node
    · simp only [stepNode, if_neg h1, if_pos h2]
      rcases growthFor_fst resources prev rng node (prev.length + ac + 1) (k + 1) with
        hg | ⟨c, hg, hc⟩
      · simp [hg, branchChildOf, List.range']
      · simp [hg, hc, branchChildOf, List.range']
    · simp only [stepNode, if_neg h1, if_neg h2]
      rcases growthFor_fst resources prev rng node (prev.length + ac) k with
        hg | ⟨c, hg, hc⟩
      · simp [hg]
      · simp [hg, hc, List.range']

theorem tickFold_upd (resources : List ResourcePoint) (prev : List PlantNode)
    (rng : ℕ → ℝ) :
    ∀ (l : List PlantNode) (acc : TickAcc),
      (l.foldl (tickStep resources prev rng) acc).upd =
        acc.upd ++ l.map (updNode resources prev) := by
  intro l
  induction l with
  | nil => intro acc; simp
  | cons n l ih =>
    intro acc
    simp only [List.foldl_cons, List.map_cons]
    rw [ih]
    simp [tickStep, stepNode_updated]

theorem tickFold_added_ids (resources : List ResourcePoint) (prev : List PlantNode)
    (rng : ℕ → ℝ) :
    ∀ (l : List PlantNode) (acc : TickAcc),
      acc.added.map (·.id) = List.range' prev.length acc.added.length →
      (l.foldl (tickStep resources prev rng) acc).added.map (·.id) =
        List.range' prev.length (l.foldl (tickStep resources prev rng) acc).added.length := by
  intro l
  induction l with
  | nil => intro acc h; simpa using h
  | cons n l ih =>
    intro acc h
    simp only [List.foldl_cons]
    apply ih
    show ((tickStep resources prev rng acc n).added.map (·.id) =
      List.range' prev.length (tickStep resources prev rng acc n).added.length)
    have hch := stepNode_children_ids resources prev rng acc.added.length acc.k n
    simp only [tickStep, List.append_assoc, List.map_append, List.length_append, h, hch]
    rw [List.range'_append_1]
    congr 1
    omega

theorem tickNodes_eq (resources : List ResourcePoint) (rng : ℕ → ℝ)
    (prev : List PlantNode) :
    tickNodes resources rng prev =
      prev.map (updNode resources prev) ++
        (prev.foldl (tickStep resources prev rng) ⟨[], [], 0⟩).added := by
  have hdef : tickNodes resources rng prev =
      (prev.foldl (tickStep resources prev rng) ⟨[], [], 0⟩).upd ++
        (prev.foldl (tickStep resources prev rng) ⟨[], [], 0⟩).added := rfl
  rw [hdef, tickFold_upd]
  simp

theorem tickNodes_added_ids (resources : List ResourcePoint) (rng : ℕ → ℝ)
    (prev : List PlantNode) :
    (prev.foldl (tickStep resources prev rng) ⟨[], [], 0⟩).added.map (·.id) =
      List.range' prev.length
        (prev.foldl (tickStep resources prev rng) ⟨[], [], 0⟩).added.length :=
  tickFold_added_ids resources prev rng prev ⟨[], [], 0⟩ (by simp)

theorem reaches_ids (ns : List PlantNode) (h : Reaches ns) :
    ns.map (·.id) = List.range ns.length := by
  induction h with
  | init width height => simp [seedNode, List.range_succ]
  | tick prev resources rng hprev ih =>
    rw [tickNodes_eq]
    simp only [List.map_append, List.length_append, List.length_map]
    have h1 : (prev.map (updNode resources prev)).map (·.id) = prev.map (·.id) := by
      rw [List.map_map]
      exact List.map_congr_left fun n _ => updNode_id resources prev n
    rw [h1, ih, tickNodes_added_ids]
    rw [List.range_eq_range', List.range_eq_range']
    have hap := List.range'_append_1 0 prev.length
      (prev.foldl (tickStep resources prev rng) ⟨[], [], 0⟩).added.length
    simp only [Nat.zero_add] at hap
    rw [hap]
    congr 1
    omega

/-- C9: in every reachable state the node ids are pairwise distinct and
strictly increasing in creation (list) order, and any tick preserves the
existing nodes as a prefix (same ids, same order — never reordered or
compacted) while every node it appends receives an id strictly greater than
every existing id. -/
theorem ids_unique_monotone_append_only (ns : List PlantNode) (h : Reaches ns) :
    (ns.map (·.id)).Nodup ∧
    List.Sorted (· < ·) (ns.map (·.id)) ∧
    ∀ (resources : List ResourcePoint) (rng : ℕ → ℝ),
      ((tickNodes resources rng ns).take ns.length).map (·.id) = ns.map (·.id) ∧
      ∀ c ∈ (tickNodes resources rng ns).drop ns.length, ∀ a ∈ ns, a.id < c.id := by
  have hid := reaches_ids ns h
  refine ⟨?_, ?_, ?_⟩
  · rw [hid]; exact List.nodup_range _
  · rw [hid]; exact List.sorted_lt_range _
  · intro resources rng
    constructor
    · rw [tickNodes_eq, List.take_left' (by simp), List.map_map]
      exact List.map_congr_left fun n _ => updNode_id resources ns n
    · intro c hc a ha
      rw [tickNodes_eq, List.drop_left' (by simp)] at hc
      have hcmem : c.id ∈
          (ns.foldl (tickStep resources ns rng) ⟨[], [], 0⟩).added.map (·.id) :=
        List.mem_map_of_mem _ hc
      rw [tickNodes_added_ids] at hcmem
      have hcid : ns.length ≤ c.id := (List.mem_range'_1.mp hcmem).1
      have hamem : a.id ∈ ns.map (·.id) := List.mem_map_of_mem _ ha
      rw [hid] at hamem
      have haid : a.id < ns.length := List.mem_range.mp hamem
      omega

theorem ids_unique_monotone_append_only_wit :
    (([seedNode 800 600].map (·.id)).Nodup) ∧
    List.Sorted (· < ·) ([seedNode 800 600].map (·.id)) ∧
    ∀ (resources : List ResourcePoint) (rng : ℕ → ℝ),
      ((tickNodes resources rng [seedNode 800 600]).take 1).map (·.id) =
        [seedNode 800 600].map (·.id) ∧
      ∀ c ∈ (tickNodes resources rng [seedNode 800 600]).drop 1,
        ∀ a ∈ [seedNode 800 600], a.id < c.id :=
  ids_unique_monotone_append_only [seedNode 800 600] (Reaches.init 800 600)

/-- C5: on any tick every previous node is rewritten in place by `updNode`;
a node whose age is at most 20 has its age incremented by exactly 1, and a
node whose age exceeds 20 is inert — the step leaves it completely
unchanged and produces neither a branch child nor a growth child (while the
node remains in the collection). -/
theorem age_progression_and_inertness (resources : List ResourcePoint)
    (rng : ℕ → ℝ) (prev : List PlantNode) :
    (tickNodes resources rng prev).take prev.length =
      prev.map (updNode resources prev) ∧
    ∀ node : PlantNode,
      (node.age ≤ 20 → (updNode resources prev node).age = node.age + 1) ∧
      (20 < node.age → updNode resources prev node = node ∧
        ∀ ac k, stepNode resources prev rng ac k node = ⟨node, none, none, k⟩) := by
  constructor
  · rw [tickNodes_eq, List.take_left' (by simp)]
  · intro node
    exact ⟨fun h => updNode_age resources prev h,
      fun h => ⟨updNode_inert resources prev h,
        fun ac k => stepNode_inert resources prev rng ac k h⟩⟩

theorem age_progression_and_inertness_wit :
    (updNode [] [] (seedNode 800 600)).age = (seedNode 800 600).age + 1 :=
  ((age_progression_and_inertness [] (fun _ => (0 : ℝ)) []).2 (seedNode 800 600)).1
    (by norm_num [seedNode])

/-- C10: the tick modifies only the node list, never the resource list; no
node is removed (the previous nodes survive as a positional prefix), and for
every surviving node the id, position and parent fields are unchanged — the
update rewrites only the remaining scalar fields. -/
theorem tick_frame_conditions (s : SimState) (rng : ℕ → ℝ) :
    (tickState s rng).resources = s.resources ∧
    s.nodes.length ≤ (tickState s rng).nodes.length ∧
    ((tickState s rng).nodes.take s.nodes.length).map
        (fun n => (n.id, n.position, n.parent)) =
      s.nodes.map (fun n => (n.id, n.position, n.parent)) := by
  refine ⟨rfl, ?_, ?_⟩
  · show s.nodes.length ≤ (tickNodes s.resources rng s.nodes).length
    rw [tickNodes_eq]
    simp
  · show ((tickNodes s.resources rng s.nodes).take s.nodes.length).map _ = _
    rw [tickNodes_eq, List.take_left' (by simp), List.map_map]
    refine List.map_congr_left fun n _ => ?_
    simp only [Function.comp_apply, updNode_id, updNode_position, updNode_parent]

/-- C8: whatever the node's prior coherence, distortion and local energy,
the coherence produced by the per-node update is `max 0 (H + dH)` and is
therefore never negative. -/
theorem coherence_nonneg (resources : List ResourcePoint) (prev : List PlantNode)
    (rng : ℕ → ℝ) (ac k : ℕ) (node : PlantNode) (h : node.age ≤ 20) :
    0 ≤ (stepNode resources prev rng ac k node).updated.coherence := by
  rw [stepNode_updated]
  have h' : ¬ node.age > 20 := by omega
  unfold updNode baseUpdate
  rw [if_neg h']
  split <;> exact le_max_left _ _

theorem coherence_nonneg_wit :
    0 ≤ (stepNode [] [] (fun _ => (0 : ℝ)) 0 0 (seedNode 800 600)).updated.coherence :=
  coherence_nonneg [] [] (fun _ => (0 : ℝ)) 0 0 (seedNode 800 600)
    (by norm_num [seedNode])

/-- C6: a growth child is created for a node only when its (pre-update)
coherence exceeds 0.2, its age is below 15, the count of nodes of age below
15 in the previous snapshot is below 50, and the consumed uniform draw
exceeds 0.5; with a random stream that stays below 0.5 the growth rule
never creates any node. -/
theorem growth_guard_only_if (resources : List ResourcePoint)
    (prev : List PlantNode) (rng : ℕ → ℝ) (ac k : ℕ) (node : PlantNode) :
    (∀ c, (stepNode resources prev rng ac k node).growthChild = some c →
      node.coherence > 0.2 ∧ node.age < 15 ∧
      (prev.filter (fun n => decide (n.age < 15))).length < 50 ∧
      rng ((stepNode resources prev rng ac k node).nextK - 1) > 0.5) ∧
    ((∀ j, rng j < 0.5) →
      (stepNode resources prev rng ac k node).growthChild = none) := by
  constructor
  · intro c hc
    by_cases h1 : node.age > 20
    · rw [stepNode_inert resources prev rng ac k h1] at hc
      cases hc
    · by_cases h2 : branchCond resources prev node
      · simp only [stepNode, if_neg h1, if_pos h2] at hc ⊢
        obtain ⟨hcoh, hage, hact, hrng, hk, -, -, -, -⟩ := growthFor_some hc
        refine ⟨hcoh, hage, hact, ?_⟩
        rw [hk]
        simpa using hrng
      · simp only [stepNode, if_neg h1, if_neg h2] at hc ⊢
        obtain ⟨hcoh, hage, hact, hrng, hk, -, -, -, -⟩ := growthFor_some hc
        refine ⟨hcoh, hage, hact, ?_⟩
        rw [hk]
        simpa using hrng
  · intro hlt
    by_cases h1 : node.age > 20
    · rw [stepNode_inert resources prev rng ac k h1]
    · by_cases h2 : branchCond resources prev node
      · simp only [stepNode, if_neg h1, if_pos h2]
        exact growthFor_none (not_lt.mpr (le_of_lt (hlt _)))
      · simp only [stepNode, if_neg h1, if_neg h2]
        exact growthFor_none (not_lt.mpr (le_of_lt (hlt _)))

theorem growth_guard_only_if_wit :
    (stepNode [] [] (fun _ => (0.4 : ℝ)) 0 0 (seedNode 800 600)).growthChild = none :=
  (growth_guard_only_if [] [] (fun _ => (0.4 : ℝ)) 0 0 (seedNode 800 600)).2
    (fun _ => by norm_num)

theorem distTo_self (p : Vector2D) : distTo p p = 0 := by
  simp [distTo]

theorem foldl_spatial_lights (pos : Vector2D) :
    ∀ res : List ResourcePoint, (∀ r ∈ res, r.type = RType.light) →
      ∀ c : ℝ, res.foldl (spatialContrib pos) c = c := by
  intro res
  induction res with
  | nil => intro _ c; rfl
  | cons r rs ih =>
    intro h c
    simp only [List.foldl_cons]
    have hr : spatialContrib pos c r = c := by
      unfold spatialContrib
      rw [h r (List.mem_cons_self r rs)]
      simp
    rw [hr]
    exact ih (fun x hx => h x (List.mem_cons_of_mem _ hx)) c

theorem calcS_lights {res : List ResourcePoint}
    (h : ∀ r ∈ res, r.type = RType.light) (pos : Vector2D) :
    calculateSpatialComplexity res pos = 0.5 := by
  unfold calculateSpatialComplexity
  rw [foldl_spatial_lights pos res h]
  norm_num [min_def, max_def]

theorem gradMag_lights {res : List ResourcePoint}
    (h : ∀ r ∈ res, r.type = RType.light) (pos : Vector2D) :
    gradMag res pos = 0 := by
  unfold gradMag calculateSpatialGradient
  simp only [calcS_lights h]
  norm_num

theorem resA_lights : ∀ r ∈ resA, r.type = RType.light := by
  intro r hr
  simp only [resA, List.mem_singleton] at hr
  rw [hr]

theorem resB_lights : ∀ r ∈ resB, r.type = RType.light := by
  intro r hr
  simp only [resB, List.mem_singleton] at hr
  rw [hr]

theorem energy_resA_origin : calculateEnergy resA ⟨0, 0⟩ = 1 := by
  unfold calculateEnergy resA
  simp only [List.foldl_cons, List.foldl_nil]
  unfold energyContrib
  norm_num [distTo, MAX_ENERGY_DISTANCE, min_def, max_def]

theorem dHof_cexC1_neg : dHof resA cexC1node < 0 := by
  unfold dHof
  rw [gradMag_lights resA_lights]
  norm_num [ALPHA, EPSILON, COMPLEXITY_GRADIENT_SCALE, cexC1node]

theorem dDof_cexC1_pos : 0 < dDof resA cexC1node := by
  unfold dDof
  have h0 : 0 < |dHof resA cexC1node| := abs_pos.mpr (ne_of_lt dHof_cexC1_neg)
  have hE : calculateEnergy resA cexC1node.position = 1 := energy_resA_origin
  rw [hE]
  have hlog : 0 < Real.log (1 + |dHof resA cexC1node| * 1) :=
    Real.log_pos (by linarith)
  have hb : (0 : ℝ) < BETA := by norm_num [BETA]
  exact mul_pos hb hlog

/-- C1 counterexample: on this concrete tick input the claim's own guard
(post-update distortion above 2.5, energy above 0.3, age above 5, fewer
than 3 other nodes within 20 units) holds for an eligible node, yet the
source spawns no branch child, because line 209 reads the PRE-update
distortion, which is exactly 2.5 and not above it. -/
theorem branch_guard_claim_cex :
    specBranchGuard resA [cexC1node] cexC1node ∧ cexC1node.age ≤ 20 ∧
    (stepNode resA [cexC1node] (fun _ => (0 : ℝ)) 0 0 cexC1node).branchChild = none := by
  refine ⟨⟨?_, ?_, ?_, ?_⟩, ?_, ?_⟩
  · have := dDof_cexC1_pos
    have hD : cexC1node.distortion = 2.5 := rfl
    rw [hD]
    norm_num [D_CRITICAL]
    linarith
  · rw [show cexC1node.position = (⟨0, 0⟩ : Vector2D) from rfl, energy_resA_origin]
    norm_num
  · norm_num [cexC1node]
  · exact lt_of_le_of_lt (List.length_filter_le _ _) (by norm_num)
  · norm_num [cexC1node]
  · have h1 : ¬ cexC1node.age > 20 := by norm_num [cexC1node]
    have h2 : ¬ branchCond resA [cexC1node] cexC1node := by
      intro hb
      have := hb.1
      rw [show cexC1node.distortion = 2.5 from rfl] at this
      norm_num [D_CRITICAL] at this
    simp [stepNode, h1, h2]

/-- C1 (amended): an eligible node (age at most 20) spawns a branch child
iff its PRE-update distortion exceeds 2.5, the sampled energy exceeds 0.3,
its pre-update age exceeds 5, and the count of previous-snapshot nodes
within 20 units of its position — a count that includes the node itself —
is below 3; hence branching is impossible whenever that crowding count is 3
or more. -/
theorem branch_guard_iff (resources : List ResourcePoint) (prev : List PlantNode)
    (rng : ℕ → ℝ) (ac k : ℕ) (node : PlantNode) (h : node.age ≤ 20) :
    (stepNode resources prev rng ac k node).branchChild.isSome ↔
      branchCond resources prev node := by
  have h' : ¬ node.age > 20 := by omega
  by_cases h2 : branchCond resources prev node <;> simp [stepNode, h', h2]

theorem branch_guard_iff_wit :
    (stepNode resA [witC1node] (fun _ => (0 : ℝ)) 0 0 witC1node).branchChild.isSome :=
  (branch_guard_iff resA [witC1node] (fun _ => (0 : ℝ)) 0 0 witC1node
    (by norm_num [witC1node])).mpr
    ⟨by norm_num [witC1node, D_CRITICAL],
     by rw [show witC1node.position = (⟨0, 0⟩ : Vector2D) from rfl,
          energy_resA_origin]; norm_num,
     by norm_num [witC1node],
     lt_of_le_of_lt (List.length_filter_le _ _) (by norm_num)⟩

/-- C2: evidence against the claim — when a node's position coincides
exactly with a light-source resource point, the guard `distance <
MAX_ENERGY_DISTANCE` (line 258) is satisfied by `distance = 0` and the
source then computes `dx / distance` (line 260) with a zero, unprotected
denominator (JavaScript: `0 / 0 = NaN`); the checked embedding of the
light-attraction loop therefore returns `none` instead of a value. -/
theorem light_bias_division_by_zero : lightBiasChecked resA ⟨0, 0⟩ = none := by
  unfold lightBiasChecked resA
  simp only [List.foldl_cons, List.foldl_nil]
  unfold lightBiasCheckedStep
  norm_num [MAX_ENERGY_DISTANCE]

theorem distTo_origin_100 : distTo ⟨0, 0⟩ ⟨0, 100⟩ = 100 := by
  unfold distTo
  rw [show ((⟨0, 0⟩ : Vector2D).x - (⟨0, 100⟩ : Vector2D).x) ^ 2 +
      ((⟨0, 0⟩ : Vector2D).y - (⟨0, 100⟩ : Vector2D).y) ^ 2 = (100 : ℝ) ^ 2 from by
    norm_num]
  exact Real.sqrt_sq (by norm_num)

theorem energy_resB_origin : calculateEnergy resB ⟨0, 0⟩ = 0.45 := by
  unfold calculateEnergy resB
  simp only [List.foldl_cons, List.foldl_nil]
  unfold energyContrib
  rw [if_pos rfl]
  simp only [show distTo ⟨0, 0⟩
    ((⟨⟨0, 100⟩, 1, RType.light⟩ : ResourcePoint)).position = 100 from
    distTo_origin_100]
  norm_num [MAX_ENERGY_DISTANCE, min_def, max_def]

theorem dHof_cexC3_neg : dHof resB cexC3node < 0 := by
  unfold dHof
  rw [gradMag_lights resB_lights]
  norm_num [ALPHA, EPSILON, COMPLEXITY_GRADIENT_SCALE, cexC3node]

theorem dTof_cexC3_pos : 0 < dTof resB cexC3node := by
  unfold dTof
  have h0 : 0 < |dHof resB cexC3node| := abs_pos.mpr (ne_of_lt dHof_cexC3_neg)
  have hE : calculateEnergy resB cexC3node.position = 0.45 := energy_resB_origin
  rw [hE]
  have hz : 0 < |dHof resB cexC3node| * 0.45 := mul_pos h0 (by norm_num)
  have htanh : 0 < Real.tanh (|dHof resB cexC3node| * 0.45) := by
    rw [Real.tanh_eq_sinh_div_cosh]
    exact div_pos (Real.sinh_pos_iff.mpr hz) (Real.cosh_pos _)
  have hsign : Real.sign cexC3node.coherence = 1 := by
    rw [show cexC3node.coherence = (1 : ℝ) from rfl]
    exact Real.sign_of_pos one_pos
  rw [hsign, mul_one]
  exact mul_pos (by norm_num [BETA]) htanh

/-- C3 counterexample: on this concrete tick input a growth event fires for
the node, yet the node's resulting temporalComplexity is its pre-update
value plus dT applied exactly once — not the twice the claim states
(line 196 adds dT to the parent once; line 290 only seeds the child with
the parent's pre-update value plus dT). -/
theorem growth_dT_double_cex :
    (stepNode resB [cexC3node] (fun _ => (0.6 : ℝ)) 0 0 cexC3node).growthChild.isSome ∧
    ¬ (stepNode resB [cexC3node] (fun _ => (0.6 : ℝ)) 0 0
        cexC3node).updated.temporalComplexity =
      cexC3node.temporalComplexity + 2 * dTof resB cexC3node := by
  have h1 : ¬ cexC3node.age > 20 := by norm_num [cexC3node]
  have h2 : ¬ branchCond resB [cexC3node] cexC3node := by
    intro hb
    have hd := hb.1
    rw [show cexC3node.distortion = 0.5 from rfl] at hd
    norm_num [D_CRITICAL] at hd
  have hguard : cexC3node.coherence > 0.2 ∧ cexC3node.age < 15 ∧
      ([cexC3node].filter (fun n => decide (n.age < 15))).length < 50 :=
    ⟨by norm_num [cexC3node], by norm_num [cexC3node],
     lt_of_le_of_lt (List.length_filter_le _ _) (by norm_num)⟩
  constructor
  · simp only [stepNode, if_neg h1, if_neg h2]
    simp only [growthFor, if_pos hguard]
    norm_num
  · simp only [stepNode, if_neg h1, if_neg h2]
    rw [show (baseUpdate resB cexC3node).temporalComplexity =
      cexC3node.temporalComplexity + dTof resB cexC3node from rfl]
    rw [show cexC3node.temporalComplexity = (0 : ℝ) from rfl]
    have hpos := dTof_cexC3_pos
    intro hcontr
    linarith

/-- C3 (amended): the base update advances the node's own temporalComplexity
by dT exactly once per tick, whether or not a growth event fires; when a
growth event fires, the freshly created child starts with
temporalComplexity equal to the node's pre-update value plus dT (the same
value the node itself ends the tick with) — dT is never applied twice to
the same node's field in one tick. -/
theorem temporal_increment_once (resources : List ResourcePoint)
    (prev : List PlantNode) (rng : ℕ → ℝ) (ac k : ℕ) (node : PlantNode)
    (h : node.age ≤ 20) :
    (stepNode resources prev rng ac k node).updated.temporalComplexity =
      node.temporalComplexity + dTof resources node ∧
    ∀ c, (stepNode resources prev rng ac k node).growthChild = some c →
      c.temporalComplexity = node.temporalComplexity + dTof resources node := by
  have h' : ¬ node.age > 20 := by omega
  constructor
  · rw [stepNode_updated]
    unfold updNode baseUpdate
    rw [if_neg h']
    split <;> rfl
  · intro c hc
    by_cases h2 : branchCond resources prev node
    · simp only [stepNode, if_neg h', if_pos h2] at hc
      exact (growthFor_some hc).2.2.2.2.2.2.2.2
    · simp only [stepNode, if_neg h', if_neg h2] at hc
      exact (growthFor_some hc).2.2.2.2.2.2.2.2

theorem temporal_increment_once_wit :
    (stepNode resB [cexC3node] (fun _ => (0.6 : ℝ)) 0 0
        cexC3node).updated.temporalComplexity =
      cexC3node.temporalComplexity + dTof resB cexC3node ∧
    ∀ c, (stepNode resB [cexC3node] (fun _ => (0.6 : ℝ)) 0 0
        cexC3node).growthChild = some c →
      c.temporalComplexity = cexC3node.temporalComplexity + dTof resB cexC3node :=
  temporal_increment_once resB [cexC3node] (fun _ => (0.6 : ℝ)) 0 0 cexC3node
    (by norm_num [cexC3node])

theorem pathLookup_cons_eq {e : PathEntry} {rest : List PathEntry} {pid : ℕ}
    (he : e.id = pid) : pathLookup (e :: rest) pid = some e.cmds := by
  simp [pathLookup, List.find?, he]

theorem pathLookup_cons_ne {e : PathEntry} {rest : List PathEntry} {pid : ℕ}
    (he : e.id ≠ pid) : pathLookup (e :: rest) pid = pathLookup rest pid := by
  simp [pathLookup, List.find?, beq_eq_false_iff_ne.mpr he]

theorem pathLookup_appendSeg_none {pid : ℕ} (ppos cpos : Vector2D) :
    ∀ {acc : List PathEntry}, pathLookup acc pid = none →
      pathLookup (appendSeg acc pid ppos cpos) pid =
        some [PathCmd.move ppos, PathCmd.line cpos] := by
  intro acc
  induction acc with
  | nil =>
    intro _
    simp [appendSeg, pathLookup, List.find?]
  | cons e rest ih =>
    intro h
    by_cases he : e.id = pid
    · rw [pathLookup_cons_eq he] at h
      cases h
    · rw [pathLookup_cons_ne he] at h
      simp only [appendSeg, if_neg he]
      rw [pathLookup_cons_ne he]
      exact ih h

theorem pathLookup_appendSeg_some {pid : ℕ} (ppos cpos : Vector2D) :
    ∀ {acc : List PathEntry} {cmds : List PathCmd}, pathLookup acc pid = some cmds →
      pathLookup (appendSeg acc pid ppos cpos) pid =
        some (cmds ++ [PathCmd.line cpos]) := by
  intro acc
  induction acc with
  | nil => intro cmds h; simp [pathLookup] at h
  | cons e rest ih =>
    intro cmds h
    by_cases he : e.id = pid
    · rw [pathLookup_cons_eq he] at h
      obtain rfl := Option.some_inj.mp h
      simp only [appendSeg, if_pos he]
      exact pathLookup_cons_eq he
    · rw [pathLookup_cons_ne he] at h
      simp only [appendSeg, if_neg he]
      rw [pathLookup_cons_ne he]
      exact ih h

theorem pathLookup_appendSeg_other {pid qid : ℕ} (hq : qid ≠ pid)
    (ppos cpos : Vector2D) :
    ∀ acc : List PathEntry,
      pathLookup (appendSeg acc qid ppos cpos) pid = pathLookup acc pid := by
  intro acc
  induction acc with
  | nil =>
    show pathLookup [(⟨qid, _⟩ : PathEntry)] pid = pathLookup [] pid
    rw [pathLookup_cons_ne hq]
  | cons e rest ih =>
    by_cases he : e.id = qid
    · simp only [appendSeg, if_pos he]
      have hne2 : e.id ≠ pid := by rw [he]; exact hq
      rw [pathLookup_cons_ne hne2,
        @pathLookup_cons_ne ⟨e.id, e.cmds ++ [PathCmd.line cpos]⟩ rest pid hne2]
    · simp only [appendSeg, if_neg he]
      by_cases hep : e.id = pid
      · rw [pathLookup_cons_eq hep, pathLookup_cons_eq hep]
      · rw [pathLookup_cons_ne hep, pathLookup_cons_ne hep]
        exact ih

theorem pathFold_lookup_some (nodes : List PlantNode) (pid : ℕ) (p : PlantNode)
    (hfind : nodes.find? (fun n => n.id == pid) = some p) :
    ∀ (l : List PlantNode) (acc : List PathEntry) (cmds : List PathCmd),
      pathLookup acc pid = some cmds →
      pathLookup (l.foldl (pathStep nodes) acc) pid =
        some (cmds ++ (l.filter (fun n => decide (n.parent = some pid))).map
          (fun c => PathCmd.line c.position)) := by
  intro l
  induction l with
  | nil => intro acc cmds h; simpa using h
  | cons n l ih =>
    intro acc cmds h
    simp only [List.foldl_cons]
    cases hn : n.parent with
    | none =>
      have hstep : pathStep nodes acc n = acc := by simp [pathStep, hn]
      have hfilter : (n :: l).filter (fun x => decide (x.parent = some pid)) =
          l.filter (fun x => decide (x.parent = some pid)) := by
        simp [List.filter_cons, hn]
      rw [hstep, hfilter]
      exact ih acc cmds h
    | some qid =>
      by_cases hq : qid = pid
      · subst hq
        have hstep : pathStep nodes acc n =
            appendSeg acc qid p.position n.position := by
          simp [pathStep, hn, hfind]
        have hfilter : (n :: l).filter (fun x => decide (x.parent = some qid)) =
            n :: l.filter (fun x => decide (x.parent = some qid)) := by
          simp [List.filter_cons, hn]
        rw [hstep, hfilter]
        rw [ih _ _ (pathLookup_appendSeg_some p.position n.position h)]
        simp
      · have hfilter : (n :: l).filter (fun x => decide (x.parent = some pid)) =
            l.filter (fun x => decide (x.parent = some pid)) := by
          simp [List.filter_cons, hn, hq]
        cases hf : nodes.find? (fun x => x.id == qid) with
        | none =>
          have hstep : pathStep nodes acc n = acc := by simp [pathStep, hn, hf]
          rw [hstep, hfilter]
          exact ih acc cmds h
        | some q =>
          have hstep : pathStep nodes acc n =
              appendSeg acc qid q.position n.position := by
            simp [pathStep, hn, hf]
          rw [hstep, hfilter]
          refine ih _ _ ?_
          rw [pathLookup_appendSeg_other hq _ _ acc]
          exact h

theorem pathFold_lookup_from_empty (nodes : List PlantNode) (pid : ℕ)
    (p : PlantNode) (hfind : nodes.find? (fun n => n.id == pid) = some p) :
    ∀ (l : List PlantNode) (acc : List PathEntry),
      pathLookup acc pid = none →
      ∀ (c : PlantNode) (cs : List PlantNode),
        l.filter (fun n => decide (n.parent = some pid)) = c :: cs →
        pathLookup (l.foldl (pathStep nodes) acc) pid =
          some (PathCmd.move p.position ::
            (c :: cs).map (fun x => PathCmd.line x.position)) := by
  intro l
  induction l with
  | nil =>
    intro acc _ c cs hcs
    cases hcs
  | cons n l ih =>
    intro acc hacc c cs hcs
    simp only [List.foldl_cons]
    cases hn : n.parent with
    | none =>
      have hstep : pathStep nodes acc n = acc := by simp [pathStep, hn]
      have hfilter : (n :: l).filter (fun x => decide (x.parent = some pid)) =
          l.filter (fun x => decide (x.parent = some pid)) := by
        simp [List.filter_cons, hn]
      rw [hfilter] at hcs
      rw [hstep]
      exact ih acc hacc c cs hcs
    | some qid =>
      by_cases hq : qid = pid
      · subst hq
        have hstep : pathStep nodes acc n =
            appendSeg acc qid p.position n.position := by
          simp [pathStep, hn, hfind]
        have hfilter : (n :: l).filter (fun x => decide (x.parent = some qid)) =
            n :: l.filter (fun x => decide (x.parent = some qid)) := by
          simp [List.filter_cons, hn]
        rw [hfilter] at hcs
        obtain ⟨rfl, rfl⟩ : n = c ∧ l.filter (fun x => decide (x.parent = some qid)) = cs := by
          have h1 := List.head_eq_of_cons_eq hcs
          have h2 := List.tail_eq_of_cons_eq hcs
          exact ⟨h1, h2⟩
        rw [hstep]
        rw [pathFold_lookup_some nodes qid p hfind l _ _
          (pathLookup_appendSeg_none p.position n.position hacc)]
        simp
      · have hfilter : (n :: l).filter (fun x => decide (x.parent = some pid)) =
            l.filter (fun x => decide (x.parent = some pid)) := by
          simp [List.filter_cons, hn, hq]
        rw [hfilter] at hcs
        cases hf : nodes.find? (fun x => x.id == qid) with
        | none =>
          have hstep : pathStep nodes acc n = acc := by simp [pathStep, hn, hf]
          rw [hstep]
          exact ih acc hacc c cs hcs
        | some q =>
          have hstep : pathStep nodes acc n =
              appendSeg acc qid q.position n.position := by
            simp [pathStep, hn, hf]
          rw [hstep]
          refine ih _ ?_ c cs hcs
          rw [pathLookup_appendSeg_other hq _ _ acc]
          exact hacc

/-- C4 counterexample: with one root and two children at distinct positions
the root's accumulated path entry is `M root L child1 L child2`, whose SVG
segments are root→child1 and child1→child2; the claimed segment from the
parent's position to the second child's position is not among them — the
`L` command appended for a later child starts at the previous child's
position, not at the parent's. -/
theorem path_segment_claim_cex :
    childNode2.parent = some rootNode.id ∧
    pathLookup (derivePaths nodes3) rootNode.id =
      some [PathCmd.move rootNode.position, PathCmd.line childNode1.position,
        PathCmd.line childNode2.position] ∧
    ¬ (rootNode.position, childNode2.position) ∈
        segmentsOf [PathCmd.move rootNode.position, PathCmd.line childNode1.position,
          PathCmd.line childNode2.position] := by
  refine ⟨rfl, rfl, ?_⟩
  intro hmem
  simp only [segmentsOf, segmentsFrom, List.mem_cons, List.not_mem_nil, or_false,
    Prod.mk.injEq] at hmem
  rcases hmem with ⟨h1, h2⟩ | ⟨h1, h2⟩
  · have := congrArg Vector2D.x h2
    norm_num [childNode1, childNode2] at this
  · have := congrArg Vector2D.x h1
    norm_num [rootNode, childNode1] at this

/-- C4 (amended): for every parent id found in the node list whose child
list (in node-creation order) is nonempty, the derived path list holds one
accumulated entry for that parent consisting of a move command at the
parent's position followed by one appended line command ending at each
child's position, in child-creation order; hence the drawn polyline starts
at the parent's position and passes through the children's positions — only
the first child's segment starts at the parent's position, each later
child's segment starts at the previous child's position. -/
theorem path_polyline_accumulation (nodes : List PlantNode) (pid : ℕ)
    (p : PlantNode) (hfind : nodes.find? (fun n => n.id == pid) = some p)
    (c : PlantNode) (cs : List PlantNode)
    (hcs : nodes.filter (fun n => decide (n.parent = some pid)) = c :: cs) :
    pathLookup (derivePaths nodes) pid =
      some (PathCmd.move p.position ::
        (c :: cs).map (fun x => PathCmd.line x.position)) := by
  unfold derivePaths
  exact pathFold_lookup_from_empty nodes pid p hfind nodes [] rfl c cs hcs

theorem path_polyline_accumulation_wit :
    pathLookup (derivePaths nodes3) 0 =
      some (PathCmd.move rootNode.position ::
        ([childNode1, childNode2].map (fun x => PathCmd.line x.position))) :=
  path_polyline_accumulation nodes3 0 rootNode rfl childNode1 [childNode2] rfl

end PlantSim
